import Mathlib

/-!
Shallow embedding of the rocker build engine (src/rocker/build/build.go,
src/rocker/build/client.go) together with proofs of the specified
properties of the plan executor, the cache probe, the container
provisioner and the interactive run coordinator.
-/

namespace Rocker

/-- Modelled from the spec: the no-cache sub-record of a State
(state.go is not part of the visible source).  It holds step-local
fields excluded from the cache fingerprint: the current container
identifier, the host-level run config and the sticky cache-busted
flag. -/
structure NoCacheRec where
  containerID : String
  hostConfig : String
  cacheBusted : Bool
  deriving DecidableEq, Repr

/-- Modelled from the spec: the State value threaded through every
step (state.go is not part of the visible source).  It carries the
engine config (image, env, ...), the last produced image identifier,
the no-cache sub-record, the queue of commands to inject
(`InjectCommands`) and the transient commit-intent fields
(`commits`). -/
structure State where
  imageID : String
  env : List String
  cmdSpec : String
  noCache : NoCacheRec
  injectCommands : List String
  commits : List String
  deriving DecidableEq, Repr

/-- Modelled from the spec: `CleanCommits` strips the transient
commit-intent fields from a State, so a cache hit never re-triggers a
commit (state.go is not part of the visible source). -/
def State.cleanCommits (s : State) : State :=
  { s with commits := [] }

/-- Modelled from the spec: the fingerprint of a State is the State
with its no-cache sub-record stripped (replaced by the zero value);
two States with equal fingerprints are interchangeable for cache
purposes. -/
def State.fingerprint (s : State) : State :=
  { s with noCache := ⟨"", "", false⟩ }

/-- A docker image as the probe sees it: identifier plus the two size
metrics read by `probeCache` and `CommitContainer`. -/
structure Image where
  id : String
  size : Int
  virtualSize : Int
  deriving DecidableEq, Repr

/-- Result of the engine client's `InspectImage`: the wrapper maps the
engine's no-such-image error to a nil image (client.go), every other
failure is surfaced as an error. -/
inductive InspectImageResult where
  | found (img : Image)
  | notFound
  | fault (e : String)
  deriving DecidableEq, Repr

/-- Association-list lookup for the cache-store model. -/
def lookupEntry : List (State × State) → State → Option State
  | [], _ => none
  | (k, v) :: rest, key => if k = key then some v else lookupEntry rest key

/-- Removing a snapshot from the cache-store model: every entry whose
stored snapshot is the given state disappears. -/
def delEntry (l : List (State × State)) (snap : State) : List (State × State) :=
  l.filter (fun p => decide (p.2 ≠ snap))

/-- Modelled from the spec: the cache store consumed by the core
(the cache implementation is not part of the visible source).
`entries` maps fingerprints to stored State snapshots; `getFault` and
`delFault` inject the read/delete failures the error-handling design
talks about. -/
structure CacheStore where
  entries : List (State × State)
  getFault : Option String
  delFault : Option String
  deriving DecidableEq, Repr

/-- Modelled from the spec: `Get(fingerprint) → optional State`; a
read failure is reported as an error, otherwise the entry stored under
the State's fingerprint is returned (or nothing). -/
def CacheStore.get (cs : CacheStore) (s : State) : Option State × Option String :=
  match cs.getFault with
  | some e => (none, some e)
  | none => (lookupEntry cs.entries s.fingerprint, none)

/-- Modelled from the spec: `Del(state)` removes the stored snapshot
from the store; a delete failure is reported as an error and removes
nothing. -/
def CacheStore.del (cs : CacheStore) (snap : State) : CacheStore × Option String :=
  match cs.delFault with
  | some e => (cs, some e)
  | none => ({ cs with entries := delEntry cs.entries snap }, none)

/-- Modelled from the spec: the container engine endpoint as the
narrow client contract sees it: images by identifier, containers as a
name-to-identifier map, a counter producing fresh container
identifiers, and fault injectors for the individual engine calls. -/
structure Engine where
  images : List Image
  containers : List (String × String)
  nextID : Nat
  inspectImageFault : Option String
  inspectContainerFault : Option String
  pullFault : Option String
  createFault : Option String
  deriving DecidableEq, Repr

/-- `InspectImage` of the docker client wrapper: no-such-image becomes
`notFound` (nil image, nil error), other faults surface as errors. -/
def Engine.inspectImage (eng : Engine) (id : String) : InspectImageResult :=
  match eng.inspectImageFault with
  | some e => .fault e
  | none =>
    match eng.images.find? (fun i => decide (i.id = id)) with
    | some img => .found img
    | none => .notFound

/-- Builder configuration: the subset of `Config` read by the embedded
functions. -/
structure BuildCfg where
  reloadCache : Bool
  noCache : Bool
  deriving DecidableEq, Repr

/-- The `Build` object of build.go: accumulated size metrics, the
optional cache store, the configuration, the engine client state, the
current build State and the exports list. -/
structure Build where
  producedSize : Int
  virtualSize : Int
  cache : Option CacheStore
  cfg : BuildCfg
  client : Engine
  state : State
  exports : List String
  deriving DecidableEq, Repr

/-- Calls `probeCache` makes against its collaborators, recorded so
that claims of the form "without consulting the store" are statable. -/
inductive ProbeEvent where
  | getCalled
  | delCalled
  | inspectCalled
  deriving DecidableEq, Repr

/-- Everything `probeCache` produces: the updated build (size metrics,
cache-store mutations), the effective state, the hit flag, the error,
and the trace of collaborator calls. -/
structure ProbeResult where
  build : Build
  state : State
  hit : Bool
  err : Option String
  trace : List ProbeEvent
  deriving DecidableEq, Repr

/-- Embedding of `Build.probeCache` (build.go lines 154-206).  The
deferred `cache.Del` calls are performed on the way out with their
error discarded, exactly as a deferred call with ignored result. -/
def Build.probeCache (b : Build) (s : State) : ProbeResult :=
  match b.cache with
  | none => ⟨b, s, false, none, []⟩
  | some cache =>
    if s.noCache.cacheBusted then ⟨b, s, false, none, []⟩
    else
      match cache.get s with
      | (_, some e) => ⟨b, s, false, some e, [.getCalled]⟩
      | (none, none) =>
        ⟨b, { s with noCache := { s.noCache with cacheBusted := true } }, false, none,
          [.getCalled]⟩
      | (some s2, none) =>
        if b.cfg.reloadCache then
          let dres := cache.del s2
          ⟨{ b with cache := some dres.1 },
            { s with noCache := { s.noCache with cacheBusted := true } }, false, none,
            [.getCalled, .delCalled]⟩
        else
          match b.client.inspectImage s2.imageID with
          | .fault e => ⟨b, s, true, some e, [.getCalled, .inspectCalled]⟩
          | .notFound =>
            let dres := cache.del s2
            ⟨{ b with cache := some dres.1 },
              { s with noCache := { s.noCache with cacheBusted := true } }, false, none,
              [.getCalled, .inspectCalled, .delCalled]⟩
          | .found img =>
            ⟨{ b with producedSize := b.producedSize + img.size,
                      virtualSize := img.virtualSize },
              ({ s2 with noCache := s.noCache }).cleanCommits, true, none,
              [.getCalled, .inspectCalled]⟩

/-- Result of the raw docker `InspectContainer` call: a found
container identifier, the distinguished no-such-container error, or
any other failure. -/
inductive InspectContainerResult where
  | found (id : String)
  | noSuch
  | fault (e : String)
  deriving DecidableEq, Repr

/-- The raw engine `InspectContainer` call on the engine model. -/
def Engine.inspectContainer (eng : Engine) (name : String) : InspectContainerResult :=
  match eng.inspectContainerFault with
  | some e => .fault e
  | none =>
    match eng.containers.find? (fun p => decide (p.1 = name)) with
    | some p => .found p.2
    | none => .noSuch

/-- Embedding of `EnsureImage` (client.go lines 466-477): inspect the
image tolerating the no-such-image error; if present do nothing,
otherwise pull it. -/
def Engine.ensureImage (eng : Engine) (imageName : String) : Engine × Option String :=
  match eng.inspectImageFault with
  | some e => (eng, some e)
  | none =>
    match eng.images.find? (fun i => decide (i.id = imageName)) with
    | some _ => (eng, none)
    | none =>
      match eng.pullFault with
      | some e => (eng, some e)
      | none => ({ eng with images := eng.images ++ [⟨imageName, 0, 0⟩] }, none)

/-- The raw engine `CreateContainer` call on the engine model: a fresh
identifier is assigned and the name-to-identifier binding appended. -/
def Engine.createContainer (eng : Engine) (name : String) : Engine × Except String String :=
  match eng.createFault with
  | some e => (eng, .error e)
  | none =>
    ({ eng with
        containers := eng.containers ++ [(name, "cid-" ++ toString eng.nextID)],
        nextID := eng.nextID + 1 },
      .ok ("cid-" ++ toString eng.nextID))

/-- Outcome of `EnsureContainer`: the engine afterwards, the returned
identifier or error, and whether a create call was issued. -/
structure EnsureOut where
  engine : Engine
  result : Except String String
  created : Bool
  deriving Repr

/-- Embedding of `EnsureContainer` (client.go lines 481-514): inspect
the container by name, tolerating only the no-such-container error;
if it exists return its identifier without creating; otherwise ensure
the image and create the container under the given name. -/
def EnsureContainer (eng : Engine) (containerName : String) (configImage : String) :
    EnsureOut :=
  match eng.inspectContainer containerName with
  | .fault e => ⟨eng, .error e, false⟩
  | .found id => ⟨eng, .ok id, false⟩
  | .noSuch =>
    match eng.ensureImage configImage with
    | (eng2, some e) => ⟨eng2, .error ("Failed to check image, error: " ++ e), false⟩
    | (eng2, none) =>
      match eng2.createContainer containerName with
      | (eng3, .error e) => ⟨eng3, .error ("Failed to create container, error: " ++ e), true⟩
      | (eng3, .ok id) => ⟨eng3, .ok id, true⟩

/-- Which of the three concurrent activities of `RunContainer` wins
the final select: the wait activity (with its container exit outcome),
the attach activity delivering an error, or the interrupt signal. -/
inductive Racer where
  | waitResult (r : Option String)
  | attachError (e : String)
  | interrupt
  deriving DecidableEq, Repr

/-- The environment one `RunContainer` invocation runs in: whether
standard input is a terminal, fault injectors for the raw-mode switch,
the start call and the TTY size monitor, the select outcome, and the
result of the interrupt path's container removal. -/
structure RunEnv where
  isTerminalIn : Bool
  setRawFault : Option String
  startFault : Option String
  monitorFault : Option String
  race : Racer
  removeFault : Option String
  deriving DecidableEq, Repr

/-- Observable actions of `RunContainer`, in order of occurrence. -/
inductive RAction where
  | rawSet
  | rawRestored
  | attachAsync
  | started
  | removeAttempt
  | exitProcess (code : Nat)
  deriving DecidableEq, Repr

/-- How one `RunContainer` invocation ends: a normal return with an
optional error, or termination of the whole process with an exit
code. -/
inductive ROutcome where
  | returned (err : Option String)
  | exited (code : Nat)
  deriving DecidableEq, Repr

/-- Return path of `RunContainer`: when the terminal was put into raw
mode, the deferred restore runs before the function returns. -/
def retWith (raw : Bool) (tr : List RAction) (e : Option String) :
    List RAction × ROutcome :=
  (if raw then tr ++ [RAction.rawRestored] else tr, ROutcome.returned e)

/-- Body of `RunContainer` after the stdin/raw-mode preamble: spawn
the attach activity, start the container, monitor the TTY size when
attached, then block on the select over wait, attach error and
interrupt.  The interrupt arm removes the container (failure ignored)
and exits the process with status 2, bypassing every deferred call. -/
def runContainerBody (env : RunEnv) (attachStdin raw : Bool) (tr : List RAction) :
    List RAction × ROutcome :=
  let tr1 := tr ++ [RAction.attachAsync]
  match env.startFault with
  | some e => retWith raw tr1 (some e)
  | none =>
    let tr2 := tr1 ++ [RAction.started]
    match attachStdin, env.monitorFault with
    | true, some e =>
      retWith raw tr2 (some ("Failed to monitor TTY size for container, error: " ++ e))
    | _, _ =>
      match env.race with
      | .waitResult r => retWith raw tr2 r
      | .attachError e =>
        retWith raw tr2 (some ("Got error while attaching to container: " ++ e))
      | .interrupt =>
        (tr2 ++ [RAction.removeAttempt, RAction.exitProcess 2], ROutcome.exited 2)

/-- Embedding of `RunContainer` (client.go lines 195-329).  With
`attachStdin` the function refuses non-terminal standard input before
doing anything else, then puts the terminal into raw mode, registering
the deferred restore only if that switch succeeded. -/
def RunContainer (env : RunEnv) (attachStdin : Bool) : List RAction × ROutcome :=
  if attachStdin ∧ ¬env.isTerminalIn then
    ([], ROutcome.returned (some "Cannot attach to a container on non tty input"))
  else if attachStdin then
    match env.setRawFault with
    | some e => ([], ROutcome.returned (some e))
    | none => runContainerBody env attachStdin true [RAction.rawSet]
  else
    runContainerBody env attachStdin false []

/-- A Command of the plan protocol: an identifier for the trace,
`ShouldRun` and `Execute` over the Build (each the Go pair of result
and error), and the optional `ReplaceEnv` capability, which rewrites
the command using the current environment just before execution. -/
inductive Command : Type where
  | mk (cid : Nat)
       (shouldRun : Build → Bool × Option String)
       (execute : Build → State × Option String)
       (replaceEnv : Option (List String → Command))

/-- The command identifier. -/
def Command.cid : Command → Nat
  | .mk i _ _ _ => i

/-- The `ShouldRun` capability. -/
def Command.shouldRun : Command → Build → Bool × Option String
  | .mk _ f _ _ => f

/-- The `Execute` capability. -/
def Command.execute : Command → Build → State × Option String
  | .mk _ _ f _ => f

/-- The optional `ReplaceEnv` capability. -/
def Command.replaceEnv : Command → Option (List String → Command)
  | .mk _ _ _ r => r

/-- The command the executor actually executes: the result of
`ReplaceEnv` under the current environment when the command has that
capability, the command itself otherwise. -/
def effCmd (c : Command) (env : List String) : Command :=
  match c.replaceEnv with
  | some f => f env
  | none => c

/-- Observable events of one executor run: `ShouldRun` consulted,
`ReplaceEnv` applied, `Execute` called, each tagged with the step's
identifier. -/
inductive Event where
  | shouldRunCall (cid : Nat)
  | replaceEnvCall (cid : Nat)
  | execCall (cid : Nat)
  deriving DecidableEq, Repr

/-- The identifiers of the steps that were executed, in order. -/
def execs : List Event → List Nat
  | [] => []
  | Event.execCall i :: rest => i :: execs rest
  | _ :: rest => execs rest

/-- What one executor run returns: the event trace, the final build
and the error, if any. -/
structure RunResult where
  trace : List Event
  build : Build
  err : Option String

/-- The events of one executed (not skipped, not failed) step. -/
def cmdEvents (c : Command) : List Event :=
  Event.shouldRunCall c.cid ::
    ((match c.replaceEnv with
      | some _ => [Event.replaceEnvCall c.cid]
      | none => []) ++ [Event.execCall c.cid])

/-- The events of a run of consecutive executed steps. -/
def stepsEvents : List Command → List Event
  | [] => []
  | c :: rest => cmdEvents c ++ stepsEvents rest

/-- Embedding of the loop of `Build.Run` (build.go lines 93-142),
iterating the plan by index so the plan may grow while consumed.
`parse` abstracts `parseOnbuildCommands` followed by `NewPlan`, whose
sources are not visible: it turns the raw injected instruction strings
into a sub-plan or an error.  Fuel makes the possibly growing loop a
total function; running out of fuel is reported as an error. -/
def runAux (parse : List String → List Command × Option String) :
    Nat → Build → List Command → Nat → List Event → RunResult
  | 0, b, _, _, tr => ⟨tr, b, some "out of fuel"⟩
  | fuel + 1, b, plan, k, tr =>
    if h : k < plan.length then
      let c := plan.get ⟨k, h⟩
      match c.shouldRun b with
      | (_, some e) => ⟨tr ++ [Event.shouldRunCall c.cid], b, some e⟩
      | (false, none) => runAux parse fuel b plan (k + 1) (tr ++ [Event.shouldRunCall c.cid])
      | (true, none) =>
        let tr2 := tr ++ cmdEvents c
        match (effCmd c b.state.env).execute b with
        | (s2, some e) => ⟨tr2, { b with state := s2 }, some e⟩
        | (s2, none) =>
          if s2.injectCommands.length > 0 then
            match parse s2.injectCommands with
            | (_, some e) => ⟨tr2, { b with state := s2 }, some e⟩
            | (sub, none) =>
              runAux parse fuel
                { b with state := { s2 with injectCommands := [] } }
                (plan.take (k + 1) ++ sub ++ plan.drop (k + 1)) (k + 1) tr2
          else
            runAux parse fuel { b with state := s2 } plan (k + 1) tr2
    else ⟨tr, b, none⟩

/-- Embedding of `Build.Run`: the loop started at index zero with an
empty trace. -/
def Run (parse : List String → List Command × Option String) (fuel : Nat)
    (b : Build) (plan : List Command) : RunResult :=
  runAux parse fuel b plan 0 []

/-- A benign step: it always chooses to run without error, and its
effective command (after any environment replacement) executes without
error, producing a state with an empty injection queue. -/
def NoErrNoInject (c : Command) : Prop :=
  ∀ b : Build, c.shouldRun b = (true, none) ∧
    ∀ env, ((effCmd c env).execute b).2 = none ∧
      ((effCmd c env).execute b).1.injectCommands = []

/-! Concrete fixtures used by the witness and counterexample
theorems. -/

/-- A plain state with nothing pending. -/
def stOk : State := ⟨"img", [], "", ⟨"", "", false⟩, [], []⟩

/-- A state carrying one injected instruction. -/
def stInj : State := ⟨"img", [], "", ⟨"", "", false⟩, ["ONBUILD RUN x"], []⟩

/-- An engine with nothing on it and no injected faults. -/
def engW : Engine := ⟨[], [], 0, none, none, none, none⟩

/-- A build with no cache store configured. -/
def bW : Build := ⟨0, 0, none, ⟨false, false⟩, engW, stOk, []⟩

/-- A benign command with the given identifier. -/
def cmdOk (i : Nat) : Command := .mk i (fun _ => (true, none)) (fun _ => (stOk, none)) none

/-- A command that injects one instruction. -/
def cmdInj : Command := .mk 100 (fun _ => (true, none)) (fun _ => (stInj, none)) none

/-- A command whose `ShouldRun` answers false. -/
def cmdSkip : Command := .mk 200 (fun _ => (false, none)) (fun _ => (stOk, none)) none

/-- A command whose `ShouldRun` fails. -/
def cmdSRErr : Command :=
  .mk 300 (fun _ => (false, some "sr boom")) (fun _ => (stOk, none)) none

/-- A command whose `Execute` fails. -/
def cmdExErr : Command :=
  .mk 400 (fun _ => (true, none)) (fun _ => (stOk, some "ex boom")) none

/-- A parser turning any injected instruction list into the single
benign command 7. -/
def parseW : List String → List Command × Option String := fun _ => ([cmdOk 7], none)

/-- Input state for the cache-probe fixtures: not busted, with a
step-local container identifier in the no-cache sub-record. -/
def psIn : State := ⟨"prev", ["E=1"], "c", ⟨"cont1", "hc1", false⟩, [], []⟩

/-- The cached snapshot the store holds for `psIn`: a different
no-cache sub-record and a pending commit-intent. -/
def psSnap : State := ⟨"cachedimg", ["E=1"], "c", ⟨"oldcont", "oldhc", false⟩, [], ["commit pending"]⟩

/-- The image the cached snapshot points at. -/
def imgW : Image := ⟨"cachedimg", 5, 10⟩

/-- A store holding the snapshot for `psIn`, no faults. -/
def storeHit : CacheStore := ⟨[(psIn.fingerprint, psSnap)], none, none⟩

/-- A store whose read fails. -/
def storeGetFault : CacheStore := ⟨[], some "get boom", none⟩

/-- A store holding the snapshot but whose delete fails. -/
def storeDelFault : CacheStore := ⟨[(psIn.fingerprint, psSnap)], none, some "del boom"⟩

/-- An engine on which the cached image still exists. -/
def engHit : Engine := ⟨[imgW], [], 0, none, none, none, none⟩

/-- A build set up for a genuine cache hit. -/
def bHit : Build := ⟨0, 0, some storeHit, ⟨false, false⟩, engHit, psIn, []⟩

/-- The hit build re-configured with reload-cache semantics. -/
def bReload : Build := ⟨0, 0, some storeHit, ⟨true, false⟩, engHit, psIn, []⟩

/-- Reload-cache build whose store delete fails. -/
def bDelFault : Build := ⟨0, 0, some storeDelFault, ⟨true, false⟩, engHit, psIn, []⟩

/-- A build whose store read fails. -/
def bGetFault : Build := ⟨0, 0, some storeGetFault, ⟨false, false⟩, engHit, psIn, []⟩

/-- A build with an empty store (every probe misses). -/
def bMiss : Build := ⟨0, 0, some ⟨[], none, none⟩, ⟨false, false⟩, engHit, psIn, []⟩

/-- The input state with the sticky bust flag already set. -/
def psBusted : State := ⟨"prev", ["E=1"], "c", ⟨"cont1", "hc1", true⟩, [], []⟩

/-- An engine that already has a container under the deterministic
name `volc`. -/
def engFound : Engine := ⟨[], [("volc", "cid-9")], 3, none, none, none, none⟩

/-- Coordinator environment: interactive, no faults, the container
exits normally. -/
def envRet : RunEnv := ⟨true, none, none, none, .waitResult none, none⟩

/-- Coordinator environment: interactive, no faults, an interrupt
arrives while waiting. -/
def envInt : RunEnv := ⟨true, none, none, none, .interrupt, none⟩

/-- Coordinator environment: non-interactive, interrupt arrives, and
the cleanup removal fails. -/
def envIntNoAttach : RunEnv := ⟨false, none, none, none, .interrupt, some "rm fail"⟩

/-- Coordinator environment: standard input is not a terminal. -/
def envNoTty : RunEnv := ⟨false, none, none, none, .waitResult none, none⟩

/-! ## Theorems -/

/-- C2: sticky cache bust.  With no store configured, or with the
state's bust flag set, `probeCache` returns the input state unchanged,
no hit, no error, and consults no collaborator (empty call trace), so
every probe of a busted state misses without touching the store; and a
store miss returns no hit with the bust flag set on the returned
state. -/
theorem C2_sticky_cache_bust :
    (∀ (b : Build) (s : State), b.cache = none →
      b.probeCache s = ⟨b, s, false, none, []⟩) ∧
    (∀ (b : Build) (s : State), s.noCache.cacheBusted = true →
      b.probeCache s = ⟨b, s, false, none, []⟩) ∧
    (∀ (b : Build) (s : State) (cs : CacheStore), b.cache = some cs →
      s.noCache.cacheBusted = false → cs.get s = (none, none) →
      (b.probeCache s).hit = false ∧ (b.probeCache s).err = none ∧
        (b.probeCache s).state =
          { s with noCache := { s.noCache with cacheBusted := true } }) := by
  refine ⟨?_, ?_, ?_⟩
  · intro b s h
    simp [Build.probeCache, h]
  · intro b s h
    rcases hc : b.cache with _ | cs <;> simp [Build.probeCache, hc, h]
  · intro b s cs hc hb hg
    simp [Build.probeCache, hc, hb, hg]

/-- C2 witness: the sticky-bust and miss branches evaluated on
concrete builds. -/
theorem C2_sticky_cache_bust_witness :
    bW.probeCache stOk = ⟨bW, stOk, false, none, []⟩ ∧
    bHit.probeCache psBusted = ⟨bHit, psBusted, false, none, []⟩ ∧
    ((bMiss.probeCache psIn).hit = false ∧ (bMiss.probeCache psIn).err = none ∧
      (bMiss.probeCache psIn).state =
        { psIn with noCache := { psIn.noCache with cacheBusted := true } }) :=
  ⟨C2_sticky_cache_bust.1 bW stOk rfl,
   C2_sticky_cache_bust.2.1 bHit psBusted rfl,
   C2_sticky_cache_bust.2.2 bMiss psIn ⟨[], none, none⟩ rfl rfl rfl⟩

/-- C3: cache-hit postcondition.  On a genuine hit (entry found, no
reload mode, image still on the engine) the probe returns the cached
state with the input state's no-cache sub-record and the transient
commit-intent fields stripped, reports the hit without error, and
accumulates the found image's size metrics onto the build. -/
theorem C3_cache_hit_postcondition :
    ∀ (b : Build) (s : State) (cs : CacheStore) (s2 : State) (img : Image),
      b.cache = some cs → s.noCache.cacheBusted = false →
      cs.get s = (some s2, none) → b.cfg.reloadCache = false →
      b.client.inspectImage s2.imageID = .found img →
      (b.probeCache s).hit = true ∧ (b.probeCache s).err = none ∧
        (b.probeCache s).state = { s2 with noCache := s.noCache, commits := [] } ∧
        (b.probeCache s).state.noCache = s.noCache ∧
        (b.probeCache s).state.commits = [] ∧
        (b.probeCache s).build =
          { b with producedSize := b.producedSize + img.size,
                   virtualSize := img.virtualSize } := by
  intro b s cs s2 img hc hb hg hr hi
  simp [Build.probeCache, hc, hb, hg, hr, hi, State.cleanCommits]

/-- C3 witness: the genuine-hit branch evaluated on a concrete
build. -/
theorem C3_cache_hit_postcondition_witness :
    (bHit.probeCache psIn).hit = true ∧ (bHit.probeCache psIn).err = none ∧
    (bHit.probeCache psIn).state = { psSnap with noCache := psIn.noCache, commits := [] } ∧
    (bHit.probeCache psIn).state.noCache = psIn.noCache ∧
    (bHit.probeCache psIn).state.commits = [] ∧
    (bHit.probeCache psIn).build =
      { bHit with producedSize := bHit.producedSize + imgW.size,
                  virtualSize := imgW.virtualSize } :=
  C3_cache_hit_postcondition bHit psIn storeHit psSnap imgW rfl rfl (by decide) rfl (by decide)

/-- C5 counterexample: a concrete reload-cache probe in which the
store's delete fails, yet `probeCache` reports no error — the delete
failure does not propagate to the caller, contrary to the claim. -/
theorem C5_del_error_counterexample :
    (storeDelFault.del psSnap).2 = some "del boom" ∧
    (bDelFault.probeCache psIn).trace.contains ProbeEvent.delCalled = true ∧
    (bDelFault.probeCache psIn).err = none := by
  decide

/-- C5 (amended): errors from reading a cache entry (the store's Get)
propagate out of `probeCache`; errors from deleting an entry (the
store's Del, deferred in the reload-cache and stale-image branches) are
discarded, and `probeCache` returns without error there. -/
theorem C5_cache_errors_amended :
    (∀ (b : Build) (s : State) (cs : CacheStore) (r : Option State) (e : String),
      b.cache = some cs → s.noCache.cacheBusted = false →
      cs.get s = (r, some e) → (b.probeCache s).err = some e) ∧
    (∀ (b : Build) (s : State) (cs : CacheStore) (s2 : State),
      b.cache = some cs → s.noCache.cacheBusted = false →
      cs.get s = (some s2, none) → b.cfg.reloadCache = true →
      (b.probeCache s).err = none) ∧
    (∀ (b : Build) (s : State) (cs : CacheStore) (s2 : State),
      b.cache = some cs → s.noCache.cacheBusted = false →
      cs.get s = (some s2, none) → b.cfg.reloadCache = false →
      b.client.inspectImage s2.imageID = .notFound →
      (b.probeCache s).err = none) := by
  refine ⟨?_, ?_, ?_⟩
  · intro b s cs r e hc hb hg
    simp [Build.probeCache, hc, hb, hg]
  · intro b s cs s2 hc hb hg hr
    simp [Build.probeCache, hc, hb, hg, hr]
  · intro b s cs s2 hc hb hg hr hi
    simp [Build.probeCache, hc, hb, hg, hr, hi]

/-- C5 witness: a failing read propagates on a concrete build, and a
failing deferred delete is discarded on a concrete build. -/
theorem C5_cache_errors_amended_witness :
    (bGetFault.probeCache psIn).err = some "get boom" ∧
    (bDelFault.probeCache psIn).err = none :=
  ⟨C5_cache_errors_amended.1 bGetFault psIn storeGetFault none "get boom" rfl rfl rfl,
   C5_cache_errors_amended.2.1 bDelFault psIn storeDelFault psSnap rfl rfl (by decide) rfl⟩

/-- C6: reload-cache semantics.  On a hit under reload-cache
configuration the probe deletes the found snapshot from the store,
marks the returned state busted, reports a miss without error, and the
snapshot is absent from the resulting store. -/
theorem C6_reload_cache :
    ∀ (b : Build) (s : State) (cs : CacheStore) (s2 : State),
      b.cache = some cs → s.noCache.cacheBusted = false →
      cs.get s = (some s2, none) → b.cfg.reloadCache = true →
      cs.delFault = none →
      (b.probeCache s).hit = false ∧
      (b.probeCache s).state.noCache.cacheBusted = true ∧
      (b.probeCache s).err = none ∧
      (b.probeCache s).build.cache = some { cs with entries := delEntry cs.entries s2 } ∧
      ∀ k : State, (k, s2) ∉ delEntry cs.entries s2 := by
  intro b s cs s2 hc hb hg hr hd
  refine ⟨?_, ?_, ?_, ?_, ?_⟩ <;>
    first
      | (intro k hk
         simp only [delEntry, List.mem_filter, decide_eq_true_eq] at hk
         exact hk.2 rfl)
      | simp [Build.probeCache, hc, hb, hg, hr, CacheStore.del, hd]

/-- C6 witness: the reload branch evaluated on a concrete build; the
found snapshot is gone from the store afterwards. -/
theorem C6_reload_cache_witness :
    (bReload.probeCache psIn).hit = false ∧
    (bReload.probeCache psIn).state.noCache.cacheBusted = true ∧
    (bReload.probeCache psIn).err = none ∧
    (bReload.probeCache psIn).build.cache =
      some { storeHit with entries := delEntry storeHit.entries psSnap } ∧
    ∀ k : State, (k, psSnap) ∉ delEntry storeHit.entries psSnap := by
  have h := C6_reload_cache bReload psIn storeHit psSnap rfl rfl (by decide) rfl rfl
  exact h

/-- `ensureImage` only touches the image list: containers, the
identifier counter and every other fault injector are unchanged. -/
theorem ensureImage_frame (eng : Engine) (n : String) :
    (eng.ensureImage n).1.containers = eng.containers ∧
    (eng.ensureImage n).1.inspectContainerFault = eng.inspectContainerFault ∧
    (eng.ensureImage n).1.createFault = eng.createFault ∧
    (eng.ensureImage n).1.nextID = eng.nextID := by
  unfold Engine.ensureImage
  repeat' split
  all_goals simp

/-- C7: ensure-container idempotency.  When a container with the
requested name already exists (and the inspect call itself does not
fault), `EnsureContainer` returns that container's identifier, issues
no create and leaves the engine untouched; consequently, a second call
with the same name right after a successful first call returns the
same identifier, issues no create and leaves the engine of the first
call untouched. -/
theorem C7_ensure_container_idempotent :
    (∀ (eng : Engine) (name cfgImg : String) (pr : String × String),
      eng.inspectContainerFault = none →
      eng.containers.find? (fun p => decide (p.1 = name)) = some pr →
      EnsureContainer eng name cfgImg = ⟨eng, .ok pr.2, false⟩) ∧
    (∀ (eng : Engine) (name cfgImg id : String),
      eng.inspectContainerFault = none →
      (EnsureContainer eng name cfgImg).result = .ok id →
      (EnsureContainer (EnsureContainer eng name cfgImg).engine name cfgImg).result = .ok id ∧
      (EnsureContainer (EnsureContainer eng name cfgImg).engine name cfgImg).created = false ∧
      (EnsureContainer (EnsureContainer eng name cfgImg).engine name cfgImg).engine =
        (EnsureContainer eng name cfgImg).engine) := by
  have hfound : ∀ (eng : Engine) (name cfgImg : String) (pr : String × String),
      eng.inspectContainerFault = none →
      eng.containers.find? (fun p => decide (p.1 = name)) = some pr →
      EnsureContainer eng name cfgImg = ⟨eng, .ok pr.2, false⟩ := by
    intro eng name cfgImg pr hf hfind
    simp [EnsureContainer, Engine.inspectContainer, hf, hfind]
  refine ⟨hfound, ?_⟩
  intro eng name cfgImg id hf hok
  rcases hfind : eng.containers.find? (fun p => decide (p.1 = name)) with _ | pr
  · -- not found: the first call pulls the image if needed and creates
    rcases hei : eng.ensureImage cfgImg with ⟨eng2, oe⟩
    rcases oe with _ | e
    · rcases hcf : eng2.createFault with _ | e
      · have hframe := ensureImage_frame eng cfgImg
        rw [hei] at hframe
        have h1 : EnsureContainer eng name cfgImg =
            ⟨{ eng2 with
                containers := eng2.containers ++ [(name, "cid-" ++ toString eng2.nextID)],
                nextID := eng2.nextID + 1 },
              .ok ("cid-" ++ toString eng2.nextID), true⟩ := by
          simp [EnsureContainer, Engine.inspectContainer, hf, hfind, hei,
            Engine.createContainer, hcf]
        have hid : id = "cid-" ++ toString eng2.nextID := by
          rw [h1] at hok
          exact (Except.ok.inj hok).symm
        have hc2 : eng2.containers = eng.containers := hframe.1
        have hicf : eng2.inspectContainerFault = eng.inspectContainerFault := hframe.2.1
        have hfind2 :
            ({ eng2 with
                containers := eng2.containers ++ [(name, "cid-" ++ toString eng2.nextID)],
                nextID := eng2.nextID + 1 } : Engine).containers.find?
              (fun p => decide (p.1 = name)) =
              some (name, "cid-" ++ toString eng2.nextID) := by
          show (eng2.containers ++ [(name, "cid-" ++ toString eng2.nextID)]).find? _ = _
          rw [List.find?_append, hc2, hfind, Option.none_or]
          simp
        have h2 := hfound
          ({ eng2 with
              containers := eng2.containers ++ [(name, "cid-" ++ toString eng2.nextID)],
              nextID := eng2.nextID + 1 } : Engine)
          name cfgImg (name, "cid-" ++ toString eng2.nextID) (hicf.trans hf) hfind2
        rw [h1]
        dsimp only
        rw [h2]
        dsimp only
        rw [hid]
        exact ⟨rfl, rfl, rfl⟩
      · -- create fails: contradicts the successful first call
        have h1 : (EnsureContainer eng name cfgImg).result =
            .error ("Failed to create container, error: " ++ e) := by
          simp [EnsureContainer, Engine.inspectContainer, hf, hfind, hei,
            Engine.createContainer, hcf]
        rw [h1] at hok
        exact absurd hok (by simp)
    · -- image check fails: contradicts the successful first call
      have h1 : (EnsureContainer eng name cfgImg).result =
          .error ("Failed to check image, error: " ++ e) := by
        simp [EnsureContainer, Engine.inspectContainer, hf, hfind, hei]
      rw [h1] at hok
      exact absurd hok (by simp)
  · -- found: both calls take the find branch
    have h1 := hfound eng name cfgImg pr hf hfind
    rw [h1] at hok ⊢
    have hid : id = pr.2 := (Except.ok.inj hok).symm
    rw [hfound eng name cfgImg pr hf hfind, hid]
    exact ⟨rfl, rfl, rfl⟩

/-- C7 witness: a container already named `volc` is found and
returned without a create on a concrete engine; on an empty concrete
engine a first call creates `cid-0` and the second call returns the
same identifier without creating. -/
theorem C7_ensure_container_idempotent_witness :
    EnsureContainer engFound "volc" "img" = ⟨engFound, .ok "cid-9", false⟩ ∧
    ((EnsureContainer (EnsureContainer engW "volc" "img").engine "volc" "img").result =
        .ok "cid-0" ∧
      (EnsureContainer (EnsureContainer engW "volc" "img").engine "volc" "img").created =
        false) := by
  have h1 := C7_ensure_container_idempotent.1 engFound "volc" "img" ("volc", "cid-9") rfl
    (by decide)
  have h2 := C7_ensure_container_idempotent.2 engW "volc" "img" "cid-0" rfl rfl
  exact ⟨h1, h2.1, h2.2.1⟩

/-- C8 counterexample: a concrete interactive invocation that put the
terminal into raw mode and then received an interrupt: the process is
terminated with status 2 and the terminal is never restored, contrary
to the claim that every exit path, the interrupt path included,
restores it. -/
theorem C8_interrupt_counterexample :
    RAction.rawSet ∈ (RunContainer envInt true).1 ∧
    (RunContainer envInt true).2 = ROutcome.exited 2 ∧
    RAction.rawRestored ∉ (RunContainer envInt true).1 := by
  decide

/-- C8 (amended): whenever `RunContainer` put the terminal into raw
mode, the previous mode is restored on every path on which the
function returns, error paths included; the interrupt path, however,
terminates the process without running the deferred restore. -/
theorem C8_terminal_restore_amended :
    (∀ (env : RunEnv) (attachStdin : Bool) (e : Option String),
      RAction.rawSet ∈ (RunContainer env attachStdin).1 →
      (RunContainer env attachStdin).2 = ROutcome.returned e →
      RAction.rawRestored ∈ (RunContainer env attachStdin).1) ∧
    (∀ (env : RunEnv) (attachStdin : Bool) (c : Nat),
      RAction.rawSet ∈ (RunContainer env attachStdin).1 →
      (RunContainer env attachStdin).2 = ROutcome.exited c →
      RAction.rawRestored ∉ (RunContainer env attachStdin).1) := by
  constructor
  all_goals
    rintro ⟨it, srf, stf, mf, race, rmf⟩ attachStdin x hset hout
  all_goals
    cases attachStdin <;> cases it <;> cases srf <;> cases stf <;> cases mf <;>
      cases race <;>
      simp_all [RunContainer, runContainerBody, retWith]

/-- C8 witness: on a concrete interactive invocation that returns
normally the terminal is restored, and on the concrete interrupted
invocation it is not. -/
theorem C8_terminal_restore_amended_witness :
    RAction.rawRestored ∈ (RunContainer envRet true).1 ∧
    RAction.rawRestored ∉ (RunContainer envInt true).1 :=
  ⟨C8_terminal_restore_amended.1 envRet true none (by decide) (by decide),
   C8_terminal_restore_amended.2 envInt true 2 (by decide) (by decide)⟩

/-- C9: interrupt handling.  Whenever the interrupt wins the select
(which requires the run to have reached it: the start call succeeded
and, for interactive runs, the terminal preamble succeeded), the
coordinator attempts removal of the container regardless of whether
that removal fails, and terminates the whole process with exit status
2 — it neither returns to the build nor reports any error. -/
theorem C9_interrupt_handling :
    ∀ (env : RunEnv) (attachStdin : Bool),
      env.race = Racer.interrupt →
      env.startFault = none →
      (attachStdin = true →
        env.isTerminalIn = true ∧ env.setRawFault = none ∧ env.monitorFault = none) →
      (RunContainer env attachStdin).2 = ROutcome.exited 2 ∧
      RAction.removeAttempt ∈ (RunContainer env attachStdin).1 := by
  rintro ⟨it, srf, stf, mf, race, rmf⟩ attachStdin hrace hstart hpre
  simp only at hrace hstart
  subst hrace hstart
  cases attachStdin
  · cases mf <;> simp [RunContainer, runContainerBody]
  · obtain ⟨h1, h2, h3⟩ := hpre rfl
    simp only at h1 h2 h3
    subst h1 h2 h3
    simp [RunContainer, runContainerBody]

/-- C9 witness: the interrupt scenario evaluated on a concrete
non-interactive environment in which the removal fails, and on a
concrete interactive environment. -/
theorem C9_interrupt_handling_witness :
    ((RunContainer envIntNoAttach false).2 = ROutcome.exited 2 ∧
      RAction.removeAttempt ∈ (RunContainer envIntNoAttach false).1) ∧
    ((RunContainer envInt true).2 = ROutcome.exited 2 ∧
      RAction.removeAttempt ∈ (RunContainer envInt true).1) :=
  ⟨C9_interrupt_handling envIntNoAttach false rfl rfl (by simp),
   C9_interrupt_handling envInt true rfl rfl (fun _ => ⟨rfl, rfl, rfl⟩)⟩

/-- C10: non-tty attach precondition.  When standard input is not a
terminal, an interactive `RunContainer` returns the non-tty error with
an empty action trace: no attach was attempted, the terminal was never
put into raw mode, and the container was never started. -/
theorem C10_non_tty_attach :
    ∀ env : RunEnv, env.isTerminalIn = false →
      RunContainer env true =
        ([], ROutcome.returned (some "Cannot attach to a container on non tty input")) := by
  intro env h
  simp [RunContainer, h]

/-- C10 witness: the non-tty refusal evaluated on a concrete
environment. -/
theorem C10_non_tty_attach_witness :
    RunContainer envNoTty true =
      ([], ROutcome.returned (some "Cannot attach to a container on non tty input")) :=
  C10_non_tty_attach envNoTty rfl

/-- `stepsEvents` distributes over append. -/
theorem stepsEvents_append (l1 l2 : List Command) :
    stepsEvents (l1 ++ l2) = stepsEvents l1 ++ stepsEvents l2 := by
  induction l1 with
  | nil => simp [stepsEvents]
  | cons c rest ih => simp [stepsEvents, ih]

/-- `execs` distributes over append. -/
theorem execs_append (t1 t2 : List Event) :
    execs (t1 ++ t2) = execs t1 ++ execs t2 := by
  induction t1 with
  | nil => simp [execs]
  | cons e rest ih => cases e <;> simp [execs, ih]

/-- The only executed step among the events of one executed command is
that command. -/
theorem execs_cmdEvents (c : Command) : execs (cmdEvents c) = [c.cid] := by
  rcases h : c.replaceEnv with _ | f <;> simp [cmdEvents, h, execs]

/-- The executed steps of a run of executed commands are exactly those
commands, in order. -/
theorem execs_stepsEvents (l : List Command) :
    execs (stepsEvents l) = l.map Command.cid := by
  induction l with
  | nil => simp [stepsEvents, execs]
  | cons c rest ih => simp [stepsEvents, execs_append, execs_cmdEvents, ih]

/-- Every event of one executed command carries that command's
identifier. -/
theorem mem_cmdEvents {x : Event} {c : Command} (h : x ∈ cmdEvents c) :
    x = Event.shouldRunCall c.cid ∨ x = Event.replaceEnvCall c.cid ∨
      x = Event.execCall c.cid := by
  rcases hr : c.replaceEnv with _ | f <;> simp [cmdEvents, hr] at h <;> tauto

/-- Every event in the events of a run of executed commands belongs to
one of those commands. -/
theorem mem_stepsEvents {x : Event} {l : List Command} (h : x ∈ stepsEvents l) :
    ∃ c ∈ l, x ∈ cmdEvents c := by
  induction l with
  | nil => simp [stepsEvents] at h
  | cons c rest ih =>
    simp only [stepsEvents, List.mem_append] at h
    rcases h with h | h
    · exact ⟨c, by simp, h⟩
    · obtain ⟨c2, hc2, hx⟩ := ih h
      exact ⟨c2, by simp [hc2], hx⟩

/-- A replace-env event in the events of executed commands names one
of those commands. -/
theorem replaceEnvCall_mem {i : Nat} {l : List Command}
    (h : Event.replaceEnvCall i ∈ stepsEvents l) : i ∈ l.map Command.cid := by
  obtain ⟨c, hc, hx⟩ := mem_stepsEvents h
  rcases mem_cmdEvents hx with h1 | h1 | h1 <;> first
    | (cases h1; exact List.mem_map.2 ⟨c, hc, rfl⟩)
    | (cases h1)

/-- An exec event in the events of executed commands names one of
those commands. -/
theorem execCall_mem {i : Nat} {l : List Command}
    (h : Event.execCall i ∈ stepsEvents l) : i ∈ l.map Command.cid := by
  obtain ⟨c, hc, hx⟩ := mem_stepsEvents h
  rcases mem_cmdEvents hx with h1 | h1 | h1 <;> first
    | (cases h1; exact List.mem_map.2 ⟨c, hc, rfl⟩)
    | (cases h1)

/-- Taking one more element of a list below its length appends the
element at that index. -/
theorem take_succ_of_lt {α : Type _} (l : List α) (n : Nat) (h : n < l.length) :
    l.take (n + 1) = l.take n ++ [l.get ⟨n, h⟩] := by
  rw [List.take_succ]
  simp [List.getElem?_eq_getElem h]

/-- One executor iteration on a step that runs, executes without
error and injects nothing: the loop advances by one with the step's
events appended. -/
theorem runAux_step_run (parse : List String → List Command × Option String)
    (fuel : Nat) (b : Build) (plan : List Command) (k : Nat) (tr : List Event)
    (h : k < plan.length) (s2 : State)
    (hsr : (plan.get ⟨k, h⟩).shouldRun b = (true, none))
    (hexec : (effCmd (plan.get ⟨k, h⟩) b.state.env).execute b = (s2, none))
    (hin : s2.injectCommands = []) :
    runAux parse (fuel + 1) b plan k tr =
      runAux parse fuel { b with state := s2 } plan (k + 1)
        (tr ++ cmdEvents (plan.get ⟨k, h⟩)) := by
  simp only [List.get_eq_getElem] at hsr hexec
  simp [runAux, dif_pos h, hsr, hexec, hin, List.get_eq_getElem]

/-- One executor iteration on a step whose `ShouldRun` answers false:
the loop advances by one having only consulted `ShouldRun`. -/
theorem runAux_step_skip (parse : List String → List Command × Option String)
    (fuel : Nat) (b : Build) (plan : List Command) (k : Nat) (tr : List Event)
    (h : k < plan.length)
    (hsr : (plan.get ⟨k, h⟩).shouldRun b = (false, none)) :
    runAux parse (fuel + 1) b plan k tr =
      runAux parse fuel b plan (k + 1)
        (tr ++ [Event.shouldRunCall (plan.get ⟨k, h⟩).cid]) := by
  simp only [List.get_eq_getElem] at hsr
  simp [runAux, dif_pos h, hsr, List.get_eq_getElem]

/-- One executor iteration on a step whose `ShouldRun` fails: the run
stops with that error. -/
theorem runAux_step_shouldRunErr (parse : List String → List Command × Option String)
    (fuel : Nat) (b : Build) (plan : List Command) (k : Nat) (tr : List Event)
    (h : k < plan.length) (fl : Bool) (e : String)
    (hsr : (plan.get ⟨k, h⟩).shouldRun b = (fl, some e)) :
    runAux parse (fuel + 1) b plan k tr =
      ⟨tr ++ [Event.shouldRunCall (plan.get ⟨k, h⟩).cid], b, some e⟩ := by
  simp only [List.get_eq_getElem] at hsr
  simp [runAux, dif_pos h, hsr, List.get_eq_getElem]

/-- One executor iteration on a step whose `Execute` fails: the run
stops with that error right after the step executed. -/
theorem runAux_step_execErr (parse : List String → List Command × Option String)
    (fuel : Nat) (b : Build) (plan : List Command) (k : Nat) (tr : List Event)
    (h : k < plan.length) (s2 : State) (e : String)
    (hsr : (plan.get ⟨k, h⟩).shouldRun b = (true, none))
    (hexec : (effCmd (plan.get ⟨k, h⟩) b.state.env).execute b = (s2, some e)) :
    runAux parse (fuel + 1) b plan k tr =
      ⟨tr ++ cmdEvents (plan.get ⟨k, h⟩), { b with state := s2 }, some e⟩ := by
  simp only [List.get_eq_getElem] at hsr hexec
  simp [runAux, dif_pos h, hsr, hexec, List.get_eq_getElem]

/-- One executor iteration on a step that injects commands: the parsed
sub-plan is spliced right after the current index, the injection queue
on the state is cleared, and the loop advances by one. -/
theorem runAux_step_inject (parse : List String → List Command × Option String)
    (fuel : Nat) (b : Build) (plan : List Command) (k : Nat) (tr : List Event)
    (h : k < plan.length) (s2 : State) (l : List String) (sub : List Command)
    (hsr : (plan.get ⟨k, h⟩).shouldRun b = (true, none))
    (hexec : (effCmd (plan.get ⟨k, h⟩) b.state.env).execute b = (s2, none))
    (hin : s2.injectCommands = l) (hl : l ≠ [])
    (hp : parse l = (sub, none)) :
    runAux parse (fuel + 1) b plan k tr =
      runAux parse fuel { b with state := { s2 with injectCommands := [] } }
        (plan.take (k + 1) ++ sub ++ plan.drop (k + 1)) (k + 1)
        (tr ++ cmdEvents (plan.get ⟨k, h⟩)) := by
  have hlen : 0 < l.length := List.length_pos.2 hl
  simp only [List.get_eq_getElem] at hsr hexec
  simp [runAux, dif_pos h, hsr, hexec, hin, hlen, hp, List.get_eq_getElem]

/-- Running the executor over a suffix of benign steps: every
remaining step runs exactly once, in order, no error is reported and
the final state carries no injected commands. -/
theorem runAux_noInject (parse : List String → List Command × Option String) :
    ∀ (fuel : Nat) (b : Build) (plan : List Command) (k : Nat) (tr : List Event),
      (∀ c ∈ plan.drop k, NoErrNoInject c) →
      k ≤ plan.length →
      plan.length < fuel + k →
      b.state.injectCommands = [] →
      ∃ b2, runAux parse fuel b plan k tr =
          ⟨tr ++ stepsEvents (plan.drop k), b2, none⟩ ∧
        b2.state.injectCommands = [] := by
  intro fuel
  induction fuel with
  | zero =>
    intro b plan k tr _ hk hlen _
    omega
  | succ fuel ih =>
    intro b plan k tr hben hk hlen hinj
    by_cases h : k < plan.length
    · have hdrop := List.drop_eq_getElem_cons h
      have hcmem : plan.get ⟨k, h⟩ ∈ plan.drop k := by
        rw [hdrop]; exact List.mem_cons_self _ _
      have hcben := hben _ hcmem
      have hsr : (plan.get ⟨k, h⟩).shouldRun b = (true, none) := (hcben b).1
      have hex := ((hcben b).2 b.state.env).1
      have hexi := ((hcben b).2 b.state.env).2
      rcases hexec : (effCmd (plan.get ⟨k, h⟩) b.state.env).execute b with ⟨s2, e2⟩
      rw [hexec] at hex hexi
      simp only at hex hexi
      subst hex
      rw [runAux_step_run parse fuel b plan k tr h s2 hsr hexec hexi]
      obtain ⟨b2, heq, hb2⟩ := ih { b with state := s2 } plan (k + 1)
        (tr ++ cmdEvents (plan.get ⟨k, h⟩))
        (fun c hc => hben c (by rw [hdrop]; exact List.mem_cons_of_mem _ hc))
        (by omega) (by omega) hexi
      refine ⟨b2, ?_, hb2⟩
      rw [heq, hdrop]
      simp [stepsEvents, List.append_assoc]
    · have hdropnil : plan.drop k = [] := by
        rw [show k = plan.length by omega]
        exact List.drop_length plan
      refine ⟨b, ?_, hinj⟩
      simp [runAux, dif_neg h, hdropnil, stepsEvents]

/-- Running the executor across a block of benign steps: after `d`
such steps the loop stands at index `j + d` with the block's events
appended to the trace and `d` units of fuel consumed. -/
theorem runAux_firstSteps (parse : List String → List Command × Option String) :
    ∀ (d fuel : Nat) (b : Build) (plan : List Command) (j : Nat) (tr : List Event),
      (∀ c ∈ (plan.drop j).take d, NoErrNoInject c) →
      j + d ≤ plan.length →
      d ≤ fuel →
      b.state.injectCommands = [] →
      ∃ b2, runAux parse fuel b plan j tr =
          runAux parse (fuel - d) b2 plan (j + d)
            (tr ++ stepsEvents ((plan.drop j).take d)) ∧
        b2.state.injectCommands = [] := by
  intro d
  induction d with
  | zero =>
    intro fuel b plan j tr _ _ _ hinj
    exact ⟨b, by simp [stepsEvents], hinj⟩
  | succ d ih =>
    intro fuel b plan j tr hben hlen hfuel hinj
    have hj : j < plan.length := by omega
    obtain ⟨fuel2, rfl⟩ : ∃ f, fuel = f + 1 := ⟨fuel - 1, by omega⟩
    have hdrop := List.drop_eq_getElem_cons hj
    have htake : (plan.drop j).take (d + 1) =
        plan.get ⟨j, hj⟩ :: ((plan.drop (j + 1)).take d) := by
      rw [hdrop, List.take_succ_cons, List.get_eq_getElem]
    have hcben := hben _ (by rw [htake]; exact List.mem_cons_self _ _)
    have hsr : (plan.get ⟨j, hj⟩).shouldRun b = (true, none) := (hcben b).1
    have hex := ((hcben b).2 b.state.env).1
    have hexi := ((hcben b).2 b.state.env).2
    rcases hexec : (effCmd (plan.get ⟨j, hj⟩) b.state.env).execute b with ⟨s2, e2⟩
    rw [hexec] at hex hexi
    simp only at hex hexi
    subst hex
    rw [runAux_step_run parse fuel2 b plan j tr hj s2 hsr hexec hexi]
    obtain ⟨b2, heq, hb2⟩ := ih fuel2 { b with state := s2 } plan (j + 1)
      (tr ++ cmdEvents (plan.get ⟨j, hj⟩))
      (fun c hc => hben c (by rw [htake]; exact List.mem_cons_of_mem _ hc))
      (by omega) (by omega) hexi
    refine ⟨b2, ?_, hb2⟩
    rw [heq, htake]
    have h1 : j + 1 + d = j + (d + 1) := by omega
    have h2 : fuel2 - d = fuel2 + 1 - (d + 1) := by omega
    rw [h1, h2] at *
    simp [stepsEvents, List.append_assoc]

/-- Every benign fixture command is benign. -/
theorem cmdOk_noErrNoInject (i : Nat) : NoErrNoInject (cmdOk i) :=
  fun _ => ⟨rfl, fun _ => ⟨rfl, rfl⟩⟩

/-- Taking one more identifier of the mapped plan appends the step at
that index. -/
theorem take_map_cid_succ (plan : List Command) (k : Nat) (h : k < plan.length) :
    (plan.map Command.cid).take (k + 1) =
      (plan.map Command.cid).take k ++ [(plan.get ⟨k, h⟩).cid] := by
  rw [take_succ_of_lt (plan.map Command.cid) k (by simpa using h)]
  simp [List.get_eq_getElem]

/-- C1: injection splice correctness.  For a plan whose step `k`
(and only it) injects the instruction list `l`, parsed into the
sub-plan `sub`, the executor runs, in order, steps `0..k`, then the
parsed sub-plan, then the original steps after `k`, each exactly once,
reports no error, and the final state's injection queue is empty. -/
theorem C1_injection_splice
    (parse : List String → List Command × Option String) (fuel : Nat) (b : Build)
    (plan : List Command) (k : Nat) (l : List String) (sub : List Command)
    (hk : k < plan.length)
    (hpre : ∀ c ∈ plan.take k, NoErrNoInject c)
    (hsr : ∀ b2 : Build, (plan.get ⟨k, hk⟩).shouldRun b2 = (true, none))
    (hexe : ∀ (b2 : Build) (env : List String),
      ((effCmd (plan.get ⟨k, hk⟩) env).execute b2).2 = none)
    (hinj : ∀ (b2 : Build) (env : List String),
      ((effCmd (plan.get ⟨k, hk⟩) env).execute b2).1.injectCommands = l)
    (hl : l ≠ [])
    (hp : parse l = (sub, none))
    (hsub : ∀ c ∈ sub, NoErrNoInject c)
    (hpost : ∀ c ∈ plan.drop (k + 1), NoErrNoInject c)
    (hfuel : plan.length + sub.length < fuel)
    (hb0 : b.state.injectCommands = []) :
    (Run parse fuel b plan).err = none ∧
    execs (Run parse fuel b plan).trace =
      (plan.take (k + 1)).map Command.cid ++ sub.map Command.cid ++
        (plan.drop (k + 1)).map Command.cid ∧
    (Run parse fuel b plan).build.state.injectCommands = [] := by
  obtain ⟨b1, heq1, hb1⟩ := runAux_firstSteps parse k fuel b plan 0 []
    (by simpa using hpre) (by omega) (by omega) hb0
  simp only [Nat.zero_add, List.drop_zero, List.nil_append] at heq1
  obtain ⟨m, hm⟩ : ∃ m, fuel - k = m + 1 := ⟨fuel - k - 1, by omega⟩
  rcases hexec : (effCmd (plan.get ⟨k, hk⟩) b1.state.env).execute b1 with ⟨s2, e2⟩
  have he2 : e2 = none := by
    have h := hexe b1 b1.state.env; rw [hexec] at h; exact h
  have hs2 : s2.injectCommands = l := by
    have h := hinj b1 b1.state.env; rw [hexec] at h; exact h
  subst he2
  rw [hm, runAux_step_inject parse m b1 plan k _ hk s2 l sub (hsr b1) hexec hs2 hl hp]
    at heq1
  have hlen2 : (plan.take (k + 1) ++ sub ++ plan.drop (k + 1)).length =
      plan.length + sub.length := by
    simp [List.length_take, List.length_drop]
    omega
  have hdrop2 : (plan.take (k + 1) ++ sub ++ plan.drop (k + 1)).drop (k + 1) =
      sub ++ plan.drop (k + 1) := by
    rw [List.append_assoc]
    exact List.drop_left' (by simp [List.length_take]; omega)
  obtain ⟨b2, heq2, hb2⟩ := runAux_noInject parse m
    { b1 with state := { s2 with injectCommands := [] } }
    (plan.take (k + 1) ++ sub ++ plan.drop (k + 1)) (k + 1)
    (stepsEvents (plan.take k) ++ cmdEvents (plan.get ⟨k, hk⟩))
    (by
      rw [hdrop2]
      intro c hc
      rcases List.mem_append.1 hc with h | h
      exacts [hsub c h, hpost c h])
    (by rw [hlen2]; omega) (by rw [hlen2]; omega) rfl
  rw [heq2] at heq1
  have hR : Run parse fuel b plan = runAux parse fuel b plan 0 [] := rfl
  refine ⟨?_, ?_, ?_⟩
  · rw [hR, heq1]
  · rw [hR, heq1]
    rw [hdrop2]
    simp only [execs_append, execs_stepsEvents, execs_cmdEvents, stepsEvents_append]
    simp [take_map_cid_succ plan k hk, List.append_assoc]
  · rw [hR, heq1]
    exact hb2

/-- C1 witness: a two-step concrete plan whose second step injects one
instruction, parsed into command 7: the run executes 1, 100, 7 in
order with no error and an empty final injection queue. -/
theorem C1_injection_splice_witness :
    (Run parseW 10 bW [cmdOk 1, cmdInj]).err = none ∧
    execs (Run parseW 10 bW [cmdOk 1, cmdInj]).trace = [1, 100, 7] ∧
    (Run parseW 10 bW [cmdOk 1, cmdInj]).build.state.injectCommands = [] := by
  have h := C1_injection_splice parseW 10 bW [cmdOk 1, cmdInj] 1 ["ONBUILD RUN x"]
    [cmdOk 7] (by simp)
    (by
      intro c hc
      simp at hc
      subst hc
      exact cmdOk_noErrNoInject 1)
    (fun _ => rfl) (fun _ _ => rfl) (fun _ _ => rfl) (by simp) rfl
    (by
      intro c hc
      simp at hc
      subst hc
      exact cmdOk_noErrNoInject 7)
    (by simp) (by simp) rfl
  refine ⟨h.1, ?_, h.2.2⟩
  rw [h.2.1]
  simp [cmdOk, cmdInj, Command.cid]

/-- C4: executor abort-and-skip semantics.  First, a step whose
`ShouldRun` fails aborts the run with that error before executing that
step or any later one.  Second, a step whose `ShouldRun` answers false
is skipped: the run completes, the step's `ReplaceEnv` and `Execute`
are never called, and every other step runs exactly once.  Third, a
step whose `Execute` fails aborts the run with that error right after
it, so no later step runs. -/
theorem C4_abort_and_skip :
    (∀ (parse : List String → List Command × Option String) (fuel : Nat) (b : Build)
        (plan : List Command) (j : Nat) (fl : Bool) (e : String)
        (hj : j < plan.length),
      (∀ c ∈ plan.take j, NoErrNoInject c) →
      (∀ b2 : Build, (plan.get ⟨j, hj⟩).shouldRun b2 = (fl, some e)) →
      j < fuel → b.state.injectCommands = [] →
      (Run parse fuel b plan).err = some e ∧
      execs (Run parse fuel b plan).trace = (plan.take j).map Command.cid) ∧
    (∀ (parse : List String → List Command × Option String) (fuel : Nat) (b : Build)
        (plan : List Command) (j : Nat) (hj : j < plan.length),
      (∀ c ∈ plan.take j, NoErrNoInject c) →
      (∀ c ∈ plan.drop (j + 1), NoErrNoInject c) →
      (∀ b2 : Build, (plan.get ⟨j, hj⟩).shouldRun b2 = (false, none)) →
      plan.length < fuel → b.state.injectCommands = [] →
      (plan.map Command.cid).Nodup →
      (Run parse fuel b plan).err = none ∧
      execs (Run parse fuel b plan).trace =
        (plan.take j).map Command.cid ++ (plan.drop (j + 1)).map Command.cid ∧
      Event.replaceEnvCall (plan.get ⟨j, hj⟩).cid ∉ (Run parse fuel b plan).trace ∧
      Event.execCall (plan.get ⟨j, hj⟩).cid ∉ (Run parse fuel b plan).trace) ∧
    (∀ (parse : List String → List Command × Option String) (fuel : Nat) (b : Build)
        (plan : List Command) (j : Nat) (e : String) (hj : j < plan.length),
      (∀ c ∈ plan.take j, NoErrNoInject c) →
      (∀ b2 : Build, (plan.get ⟨j, hj⟩).shouldRun b2 = (true, none)) →
      (∀ (b2 : Build) (env : List String),
        ((effCmd (plan.get ⟨j, hj⟩) env).execute b2).2 = some e) →
      j < fuel → b.state.injectCommands = [] →
      (Run parse fuel b plan).err = some e ∧
      execs (Run parse fuel b plan).trace = (plan.take (j + 1)).map Command.cid) := by
  refine ⟨?_, ?_, ?_⟩
  · -- ShouldRun error aborts
    intro parse fuel b plan j fl e hj hpre hsr hfuel hb0
    obtain ⟨b1, heq1, hb1⟩ := runAux_firstSteps parse j fuel b plan 0 []
      (by simpa using hpre) (by omega) (by omega) hb0
    simp only [Nat.zero_add, List.drop_zero, List.nil_append] at heq1
    obtain ⟨m, hm⟩ : ∃ m, fuel - j = m + 1 := ⟨fuel - j - 1, by omega⟩
    rw [hm, runAux_step_shouldRunErr parse m b1 plan j _ hj fl e (hsr b1)] at heq1
    have hR : Run parse fuel b plan = runAux parse fuel b plan 0 [] := rfl
    constructor
    · rw [hR, heq1]
    · rw [hR, heq1]
      simp [execs_append, execs_stepsEvents, execs]
  · -- ShouldRun false skips without ReplaceEnv or Execute
    intro parse fuel b plan j hj hpre hpost hsr hfuel hb0 hnd
    obtain ⟨b1, heq1, hb1⟩ := runAux_firstSteps parse j fuel b plan 0 []
      (by simpa using hpre) (by omega) (by omega) hb0
    simp only [Nat.zero_add, List.drop_zero, List.nil_append] at heq1
    obtain ⟨m, hm⟩ : ∃ m, fuel - j = m + 1 := ⟨fuel - j - 1, by omega⟩
    rw [hm, runAux_step_skip parse m b1 plan j _ hj (hsr b1)] at heq1
    obtain ⟨b2, heq2, hb2⟩ := runAux_noInject parse m b1 plan (j + 1)
      (stepsEvents (plan.take j) ++ [Event.shouldRunCall (plan.get ⟨j, hj⟩).cid])
      hpost (by omega) (by omega) hb1
    rw [heq2] at heq1
    have hsplit : plan.map Command.cid =
        (plan.take j).map Command.cid ++
          (plan.get ⟨j, hj⟩).cid :: (plan.drop (j + 1)).map Command.cid := by
      conv_lhs => rw [← List.take_append_drop j plan, List.drop_eq_getElem_cons hj]
      simp only [List.map_append, List.map_cons, List.get_eq_getElem]
    rw [hsplit, List.nodup_append] at hnd
    have hnotin1 : (plan.get ⟨j, hj⟩).cid ∉ (plan.take j).map Command.cid :=
      fun hmem => hnd.2.2 hmem (List.mem_cons_self _ _)
    have hnotin2 : (plan.get ⟨j, hj⟩).cid ∉ (plan.drop (j + 1)).map Command.cid :=
      (List.nodup_cons.1 hnd.2.1).1
    have hR : Run parse fuel b plan = runAux parse fuel b plan 0 [] := rfl
    refine ⟨?_, ?_, ?_, ?_⟩
    · rw [hR, heq1]
    · rw [hR, heq1]
      simp [execs_append, execs_stepsEvents, execs]
    · rw [hR, heq1]
      intro hmem
      simp only [List.mem_append, List.mem_singleton] at hmem
      rcases hmem with (hmem | hmem) | hmem
      · exact hnotin1 (replaceEnvCall_mem hmem)
      · exact Event.noConfusion hmem
      · exact hnotin2 (replaceEnvCall_mem hmem)
    · rw [hR, heq1]
      intro hmem
      simp only [List.mem_append, List.mem_singleton] at hmem
      rcases hmem with (hmem | hmem) | hmem
      · exact hnotin1 (execCall_mem hmem)
      · exact Event.noConfusion hmem
      · exact hnotin2 (execCall_mem hmem)
  · -- Execute error aborts right after the step
    intro parse fuel b plan j e hj hpre hsr hexe hfuel hb0
    obtain ⟨b1, heq1, hb1⟩ := runAux_firstSteps parse j fuel b plan 0 []
      (by simpa using hpre) (by omega) (by omega) hb0
    simp only [Nat.zero_add, List.drop_zero, List.nil_append] at heq1
    obtain ⟨m, hm⟩ : ∃ m, fuel - j = m + 1 := ⟨fuel - j - 1, by omega⟩
    rcases hexec : (effCmd (plan.get ⟨j, hj⟩) b1.state.env).execute b1 with ⟨s2, e2⟩
    have he2 : e2 = some e := by
      have h := hexe b1 b1.state.env; rw [hexec] at h; exact h
    subst he2
    rw [hm, runAux_step_execErr parse m b1 plan j _ hj s2 e (hsr b1) hexec] at heq1
    have hR : Run parse fuel b plan = runAux parse fuel b plan 0 [] := rfl
    constructor
    · rw [hR, heq1]
    · rw [hR, heq1]
      simp only [execs_append, execs_stepsEvents, execs_cmdEvents]
      simp [take_map_cid_succ plan j hj, List.append_assoc]

/-- C4 witness: the three scenarios on concrete one-step plans: a
failing `ShouldRun` aborts with its error and nothing executes; a
false `ShouldRun` skips (nothing executes, no replace-env or exec
event for the step); a failing `Execute` aborts with its error after
executing exactly that step. -/
theorem C4_abort_and_skip_witness :
    ((Run parseW 2 bW [cmdSRErr]).err = some "sr boom" ∧
      execs (Run parseW 2 bW [cmdSRErr]).trace = []) ∧
    ((Run parseW 3 bW [cmdSkip]).err = none ∧
      execs (Run parseW 3 bW [cmdSkip]).trace = [] ∧
      Event.replaceEnvCall 200 ∉ (Run parseW 3 bW [cmdSkip]).trace ∧
      Event.execCall 200 ∉ (Run parseW 3 bW [cmdSkip]).trace) ∧
    ((Run parseW 2 bW [cmdExErr]).err = some "ex boom" ∧
      execs (Run parseW 2 bW [cmdExErr]).trace = [400]) := by
  have h1 := C4_abort_and_skip.1 parseW 2 bW [cmdSRErr] 0 false "sr boom" (by simp)
    (by simp) (fun _ => rfl) (by omega) rfl
  have h2 := C4_abort_and_skip.2.1 parseW 3 bW [cmdSkip] 0 (by simp)
    (by simp) (by simp) (fun _ => rfl) (by simp) rfl (by simp)
  have h3 := C4_abort_and_skip.2.2 parseW 2 bW [cmdExErr] 0 "ex boom" (by simp)
    (by simp) (fun _ => rfl) (fun _ _ => rfl) (by omega) rfl
  refine ⟨⟨h1.1, by simpa using h1.2⟩,
    ⟨h2.1, by simpa using h2.2.1, ?_, ?_⟩,
    ⟨h3.1, by simpa using h3.2⟩⟩
  · have := h2.2.2.1
    simpa [cmdSkip, Command.cid] using this
  · have := h2.2.2.2
    simpa [cmdSkip, Command.cid] using this

end Rocker
